import Mathlib

/-!
Verification of `keepalive_random.py`: a single-loop keepalive pinger.

The Python source is shallowly embedded below.  Randomness is made
explicit: each `random.uniform` call is parameterised by a unit draw
`t ∈ [0, 1]`, `random.random() < 0.7` becomes a `Bool` argument,
`random.choice` becomes the chosen element, and the network is an
oracle mapping each attempt to its transport outcome.  Durations are
rationals (Python floats, modelled exactly); counters are naturals.
-/

namespace Keepalive

/-- `MIN_INTERVAL_SECONDS = 60 * 10` (line 24 of the source). -/
def MIN_INTERVAL_SECONDS : ℚ := 60 * 10

/-- `MAX_INTERVAL_SECONDS = 60 * 25` (line 25). -/
def MAX_INTERVAL_SECONDS : ℚ := 60 * 25

/-- `JITTER_PCT = 0.15` (line 28). -/
def JITTER_PCT : ℚ := 15 / 100

/-- `REQUEST_TIMEOUT = 30` (line 31). -/
def REQUEST_TIMEOUT : ℚ := 30

/-- `MAX_RETRIES = 3` (line 34). -/
def MAX_RETRIES : ℕ := 3

/-- `BACKOFF_BASE = 5` (line 37). -/
def BACKOFF_BASE : ℕ := 5

/-- `EXTRA_QUERY_KEYS = ["t", "v", "rand", "token", "src"]` (line 52). -/
def EXTRA_QUERY_KEYS : List String := ["t", "v", "rand", "token", "src"]

/-- `random.uniform a b`, parameterised by the unit draw `t`:
the library returns `a + t * (b - a)` for some `t ∈ [0, 1]`. -/
def uniform (a b t : ℚ) : ℚ := a + t * (b - a)

/-- `random_interval` (lines 73-78): draw a base interval, apply a
±`JITTER_PCT` jitter, floor at 1 second.  `t1` is the unit draw of the
base, `t2` the unit draw of the jittered value. -/
def random_interval (t1 t2 : ℚ) : ℚ :=
  let base := uniform MIN_INTERVAL_SECONDS MAX_INTERVAL_SECONDS t1
  let jitter := base * JITTER_PCT
  let value := uniform (base - jitter) (base + jitter) t2
  max 1 value

/-- C1: every interval returned by `random_interval` is at least 1 second
and lies within `[0.85 * MIN_INTERVAL_SECONDS, 1.15 * MAX_INTERVAL_SECONDS]`;
the base draw lies in `[MIN_INTERVAL_SECONDS, MAX_INTERVAL_SECONDS]` and the
jitter draw lies in `[base * 0.85, base * 1.15]`. -/
theorem random_interval_range (t1 t2 : ℚ)
    (h10 : 0 ≤ t1) (h11 : t1 ≤ 1) (h20 : 0 ≤ t2) (h21 : t2 ≤ 1) :
    1 ≤ random_interval t1 t2 ∧
    85 / 100 * MIN_INTERVAL_SECONDS ≤ random_interval t1 t2 ∧
    random_interval t1 t2 ≤ 115 / 100 * MAX_INTERVAL_SECONDS ∧
    MIN_INTERVAL_SECONDS ≤ uniform MIN_INTERVAL_SECONDS MAX_INTERVAL_SECONDS t1 ∧
    uniform MIN_INTERVAL_SECONDS MAX_INTERVAL_SECONDS t1 ≤ MAX_INTERVAL_SECONDS ∧
    uniform MIN_INTERVAL_SECONDS MAX_INTERVAL_SECONDS t1 * (85 / 100) ≤
      uniform
        (uniform MIN_INTERVAL_SECONDS MAX_INTERVAL_SECONDS t1 -
          uniform MIN_INTERVAL_SECONDS MAX_INTERVAL_SECONDS t1 * JITTER_PCT)
        (uniform MIN_INTERVAL_SECONDS MAX_INTERVAL_SECONDS t1 +
          uniform MIN_INTERVAL_SECONDS MAX_INTERVAL_SECONDS t1 * JITTER_PCT) t2 ∧
    uniform
        (uniform MIN_INTERVAL_SECONDS MAX_INTERVAL_SECONDS t1 -
          uniform MIN_INTERVAL_SECONDS MAX_INTERVAL_SECONDS t1 * JITTER_PCT)
        (uniform MIN_INTERVAL_SECONDS MAX_INTERVAL_SECONDS t1 +
          uniform MIN_INTERVAL_SECONDS MAX_INTERVAL_SECONDS t1 * JITTER_PCT) t2 ≤
      uniform MIN_INTERVAL_SECONDS MAX_INTERVAL_SECONDS t1 * (115 / 100) := by
  unfold random_interval uniform MIN_INTERVAL_SECONDS MAX_INTERVAL_SECONDS JITTER_PCT
  refine ⟨le_max_left _ _, ?_, ?_, by nlinarith, by nlinarith, by nlinarith, by nlinarith⟩
  · exact le_trans (by nlinarith) (le_max_right _ _)
  · exact max_le (by nlinarith) (by nlinarith)

/-- Witness for C1 at the concrete draws `t1 = t2 = 1/2`. -/
theorem random_interval_range_witness :
    1 ≤ random_interval (1 / 2) (1 / 2) ∧
    85 / 100 * MIN_INTERVAL_SECONDS ≤ random_interval (1 / 2) (1 / 2) := by
  have h := random_interval_range (1 / 2) (1 / 2)
    (by norm_num) (by norm_num) (by norm_num) (by norm_num)
  exact ⟨h.1, h.2.1⟩

/-- Transport outcome of one `session.get`: either a response arrives
(status, elapsed time, body length), or `asyncio.TimeoutError` is raised,
or some other request exception is raised. -/
inductive ReqOutcome
  | response (status : ℕ) (elapsed : ℚ) (bodyLen : ℕ)
  | timeout (elapsed : ℚ)
  | connError (elapsed : ℚ)
deriving DecidableEq

/-- The arguments of a `session.get` call that the control flow depends
on: the timeout passed to the HTTP client. -/
structure GetCall where
  timeout : ℚ
deriving DecidableEq

/-- `do_request` (lines 105-124): issue the GET with
`timeout = REQUEST_TIMEOUT` against the network oracle `respond`; return
`(resp.status, elapsed)` when a response arrives, re-raise (here: `none`)
on `asyncio.TimeoutError` and on every other exception. -/
def do_request (respond : GetCall → ReqOutcome) : Option (ℕ × ℚ) :=
  match respond { timeout := REQUEST_TIMEOUT } with
  | .response s e _ => some (s, e)
  | .timeout _ => none
  | .connError _ => none

/-- Result of one run of the inner retry loop of `worker`:
the value of `consecutive_errors` on exit, the sleeps performed (in
order, in seconds), the number of attempts made, and whether
`do_request` succeeded. -/
structure CycleResult where
  consecutive_errors : ℕ
  sleeps : List ℕ
  attempts : ℕ
  succeeded : Bool
deriving DecidableEq

/-- The inner `while True` retry loop of `worker` (lines 135-154).
`sess a` is the network oracle seen by attempt number `a`; `ce` is the
current `consecutive_errors`; `attempt` is the attempt counter before
the `attempt += 1` at the top of the body.  On success the counter is
reset and the loop breaks; on failure with `attempt >= MAX_RETRIES` the
counter is incremented and a backoff sleep
`BACKOFF_BASE * 2 ^ (consecutive_errors - 1)` precedes the break;
otherwise a retry sleep `BACKOFF_BASE * 2 ^ (attempt - 1)` precedes the
next iteration. -/
def retryLoop (sess : ℕ → GetCall → ReqOutcome) (ce attempt : ℕ) : CycleResult :=
  let a := attempt + 1
  if (do_request (sess a)).isSome then
    { consecutive_errors := 0, sleeps := [], attempts := a, succeeded := true }
  else if _h : MAX_RETRIES ≤ a then
    { consecutive_errors := ce + 1,
      sleeps := [BACKOFF_BASE * 2 ^ (ce + 1 - 1)],
      attempts := a, succeeded := false }
  else
    let r := retryLoop sess ce a
    { r with sleeps := BACKOFF_BASE * 2 ^ (a - 1) :: r.sleeps }
termination_by MAX_RETRIES - attempt
decreasing_by
  simp only [MAX_RETRIES] at *
  omega

/-- Full case analysis of one run of the retry loop (`MAX_RETRIES = 3`). -/
theorem retryLoop_cases (sess : ℕ → GetCall → ReqOutcome) (ce : ℕ) :
    retryLoop sess ce 0 =
      if (do_request (sess 1)).isSome then
        ⟨0, [], 1, true⟩
      else if (do_request (sess 2)).isSome then
        ⟨0, [BACKOFF_BASE], 2, true⟩
      else if (do_request (sess 3)).isSome then
        ⟨0, [BACKOFF_BASE, BACKOFF_BASE * 2], 3, true⟩
      else
        ⟨ce + 1, [BACKOFF_BASE, BACKOFF_BASE * 2, BACKOFF_BASE * 2 ^ ce], 3, false⟩ := by
  rw [retryLoop, retryLoop, retryLoop]
  simp [MAX_RETRIES]
  split
  · rfl
  · split
    · rfl
    · split <;> rfl

/-- The per-cycle input of the outer `while True` loop of `worker`
(lines 131-162): the network oracle seen by each attempt, the two unit
draws of `random_interval`, and whether the post-retry part of the
cycle (interval computation / sleep) raises an exception that escapes
to the outer `except` handler. -/
structure CycleInput where
  sess : ℕ → GetCall → ReqOutcome
  t1 : ℚ
  t2 : ℚ
  interval_raises : Bool

/-- One iteration of the outer loop of `worker` (lines 131-162): run the
retry loop, then compute `random_interval` and sleep it; if the
post-retry part raises, the exception is caught by the outer `except`
(line 159) and a fixed 60-second sleep is performed instead, after
which the loop continues.  Returns the new `consecutive_errors` and the
sleeps performed during the cycle. -/
def worker_body (ce : ℕ) (inp : CycleInput) : ℕ × List ℚ :=
  let r := retryLoop inp.sess ce 0
  let tail : List ℚ :=
    if inp.interval_raises then [60] else [random_interval inp.t1 inp.t2]
  (r.consecutive_errors, r.sleeps.map (fun n => (n : ℚ)) ++ tail)

/-- The outer `while True` loop of `worker`, run over a finite prefix of
cycle inputs: the list of per-cycle results, each carrying the
`consecutive_errors` value after the cycle and its sleeps. -/
def runWorker (ce : ℕ) : List CycleInput → List (ℕ × List ℚ)
  | [] => []
  | inp :: rest =>
    let step := worker_body ce inp
    step :: runWorker step.1 rest

/-- The successive values of `consecutive_errors` after each cycle. -/
def ceTrace (ce : ℕ) (inps : List CycleInput) : List ℕ :=
  (runWorker ce inps).map Prod.fst

theorem runWorker_length (ce : ℕ) (inps : List CycleInput) :
    (runWorker ce inps).length = inps.length := by
  induction inps generalizing ce with
  | nil => rfl
  | cons inp rest ih => simp [runWorker, ih]

theorem worker_body_fail (ce : ℕ) (inp : CycleInput)
    (hfail : ∀ a, (do_request (inp.sess a)).isSome = false) :
    worker_body ce inp =
      (ce + 1,
        [(BACKOFF_BASE : ℚ), (BACKOFF_BASE : ℚ) * 2, (BACKOFF_BASE : ℚ) * 2 ^ ce] ++
          (if inp.interval_raises then [(60 : ℚ)] else [random_interval inp.t1 inp.t2])) := by
  simp [worker_body, retryLoop_cases, hfail]

/-- C2: in an unbroken streak of cycles whose every delivery attempt fails,
cycle `i` (0-indexed) increments the consecutive-failure counter to
`ce0 + i + 1` and, after the two in-cycle retry waits, sleeps exactly
`BACKOFF_BASE * 2 ^ (N - 1)` seconds where `N = ce0 + i + 1` is the counter
after the increment: the backoff escalates across the streak. -/
theorem consecutive_failure_backoff (ce0 : ℕ) (inps : List CycleInput)
    (hfail : ∀ inp ∈ inps, ∀ a, (do_request (inp.sess a)).isSome = false)
    (i : ℕ) (hi : i < inps.length) :
    ∃ inp, inps[i]? = some inp ∧
      (runWorker ce0 inps)[i]? =
        some (ce0 + i + 1,
          [(BACKOFF_BASE : ℚ) * 2 ^ (1 - 1), (BACKOFF_BASE : ℚ) * 2 ^ (2 - 1),
              (BACKOFF_BASE : ℚ) * 2 ^ (ce0 + i + 1 - 1)] ++
            (if inp.interval_raises then [(60 : ℚ)]
              else [random_interval inp.t1 inp.t2])) := by
  induction inps generalizing ce0 i with
  | nil => simp at hi
  | cons inp rest ih =>
    have hw := worker_body_fail ce0 inp (hfail inp (by simp))
    cases i with
    | zero =>
      refine ⟨inp, by simp, ?_⟩
      simp [runWorker, hw]
    | succ j =>
      have hj : j < rest.length := by simpa using hi
      obtain ⟨inp', h1, h2⟩ := ih (ce0 + 1) (fun x hx a => hfail x (by simp [hx]) a) j hj
      refine ⟨inp', by simpa using h1, ?_⟩
      have hstep : (runWorker ce0 (inp :: rest))[j + 1]? = (runWorker (ce0 + 1) rest)[j]? := by
        simp [runWorker, hw]
      rw [hstep, h2]
      have e1 : ce0 + 1 + j + 1 = ce0 + (j + 1) + 1 := by omega
      rw [e1]

/-- A cycle input whose every attempt times out. -/
def allFailCycle : CycleInput :=
  { sess := fun _ _ => .timeout 30, t1 := 1 / 2, t2 := 1 / 2, interval_raises := false }

/-- Witness for C2 on one concrete all-failing cycle starting from a zero
counter. -/
theorem consecutive_failure_backoff_witness :
    ∃ inp, ([allFailCycle])[0]? = some inp ∧
      (runWorker 0 [allFailCycle])[0]? =
        some (0 + 0 + 1,
          [(BACKOFF_BASE : ℚ) * 2 ^ (1 - 1), (BACKOFF_BASE : ℚ) * 2 ^ (2 - 1),
              (BACKOFF_BASE : ℚ) * 2 ^ (0 + 0 + 1 - 1)] ++
            (if inp.interval_raises then [(60 : ℚ)]
              else [random_interval inp.t1 inp.t2])) :=
  consecutive_failure_backoff 0 [allFailCycle]
    (by intro inp hm a; rw [List.mem_singleton] at hm; subst hm; rfl)
    0 (by decide)

/-- C3: within a cycle, the sleep after a failed attempt that is not the
last one is exactly `BACKOFF_BASE * 2 ^ (attempt - 1)`, where `attempt`
is the 1-indexed number of the attempt that just failed (the `j`-th
sleep, 0-indexed, follows attempt `j + 1`). -/
theorem retry_wait_within_cycle (sess : ℕ → GetCall → ReqOutcome) (ce j : ℕ)
    (hj : j < (retryLoop sess ce 0).attempts - 1) :
    (retryLoop sess ce 0).sleeps[j]? = some (BACKOFF_BASE * 2 ^ (j + 1 - 1)) := by
  rw [retryLoop_cases] at hj ⊢
  by_cases h1 : (do_request (sess 1)).isSome = true
  · simp [h1] at hj
  · by_cases h2 : (do_request (sess 2)).isSome = true
    · simp [h1, h2] at hj ⊢
      subst hj
      norm_num
    · by_cases h3 : (do_request (sess 3)).isSome = true <;>
        · simp [h1, h2, h3] at hj ⊢
          interval_cases j <;> norm_num

/-- A session whose first attempt raises a connection error and whose
later attempts receive a response. -/
def sessRetryOnce : ℕ → GetCall → ReqOutcome :=
  fun a _ => if a = 1 then .connError 1 else .response 200 (1 / 2) 17

/-- Witness for C3: the sleep after the first failed attempt is
`BACKOFF_BASE * 2 ^ 0 = 5` seconds. -/
theorem retry_wait_within_cycle_witness :
    (retryLoop sessRetryOnce 0 0).sleeps[0]? = some (BACKOFF_BASE * 2 ^ (0 + 1 - 1)) :=
  retry_wait_within_cycle sessRetryOnce 0 0 (by rw [retryLoop_cases]; decide)

theorem ceTrace_chain (ce0 : ℕ) (inps : List CycleInput)
    (hfail : ∀ inp ∈ inps, ∀ a, (do_request (inp.sess a)).isSome = false) :
    List.Chain' (fun x y => x ≤ y) (ce0 :: ceTrace ce0 inps) := by
  induction inps generalizing ce0 with
  | nil => simp [ceTrace, runWorker]
  | cons inp rest ih =>
    have hw := worker_body_fail ce0 inp (hfail inp (by simp))
    have hT : ceTrace ce0 (inp :: rest) = (ce0 + 1) :: ceTrace (ce0 + 1) rest := by
      simp [ceTrace, runWorker, hw]
    rw [hT, List.chain'_cons]
    exact ⟨Nat.le_succ ce0, ih (ce0 + 1) (fun x hx a => hfail x (by simp [hx]) a)⟩

/-- C4: the consecutive-failure counter is exactly 0 immediately after a
cycle whose delivery succeeded, a failed cycle raises it from `ce` to
`ce + 1`, and along an unbroken failure streak the successive counter
values form a non-decreasing chain. -/
theorem consecutive_errors_reset_monotone :
    (∀ sess ce, (retryLoop sess ce 0).succeeded = true →
      (retryLoop sess ce 0).consecutive_errors = 0) ∧
    (∀ sess ce, (retryLoop sess ce 0).succeeded = false →
      (retryLoop sess ce 0).consecutive_errors = ce + 1) ∧
    (∀ ce0 inps, (∀ inp ∈ inps, ∀ a, (do_request (inp.sess a)).isSome = false) →
      List.Chain' (fun x y => x ≤ y) (ce0 :: ceTrace ce0 inps)) := by
  refine ⟨?_, ?_, fun ce0 inps hfail => ceTrace_chain ce0 inps hfail⟩
  · intro sess ce h
    rw [retryLoop_cases] at h ⊢
    split_ifs at h ⊢
    all_goals simp_all
  · intro sess ce h
    rw [retryLoop_cases] at h ⊢
    split_ifs at h ⊢
    all_goals simp_all

/-- Witness for C4: the counter resets to 0 after a success even from 5,
and a two-cycle failure streak yields a non-decreasing trace. -/
theorem consecutive_errors_reset_monotone_witness :
    (retryLoop sessRetryOnce 5 0).consecutive_errors = 0 ∧
    List.Chain' (fun x y => x ≤ y) (0 :: ceTrace 0 [allFailCycle, allFailCycle]) :=
  ⟨consecutive_errors_reset_monotone.1 sessRetryOnce 5 (by rw [retryLoop_cases]; decide),
    consecutive_errors_reset_monotone.2.2 0 [allFailCycle, allFailCycle]
      (by
        intro inp hm a
        rw [List.mem_cons, List.mem_singleton] at hm
        rcases hm with h | h
        · subst h; rfl
        · subst h; rfl)⟩

/-- C6: `do_request` succeeds exactly when a response is received (no
transport error), whatever the status code; the response case returns
`(status, elapsed)` with the status never inspected; and whenever any
attempt `k` of a cycle receives a response (the earlier attempts having
failed, which is how the loop reaches attempt `k`), the retry loop
stops at that attempt with the consecutive-failure counter reset to 0. -/
theorem success_iff_response :
    (∀ o : ReqOutcome, (do_request (fun _ => o)).isSome = true ↔
      ∃ s e b, o = ReqOutcome.response s e b) ∧
    (∀ s e b, do_request (fun _ => ReqOutcome.response s e b) = some (s, e)) ∧
    (∀ sess : ℕ → GetCall → ReqOutcome, ∀ ce k s e b,
      1 ≤ k → k ≤ MAX_RETRIES →
      sess k { timeout := REQUEST_TIMEOUT } = ReqOutcome.response s e b →
      (∀ a, 1 ≤ a → a < k → (do_request (sess a)).isSome = false) →
      (retryLoop sess ce 0).succeeded = true ∧
      (retryLoop sess ce 0).attempts = k ∧
      (retryLoop sess ce 0).consecutive_errors = 0) := by
  refine ⟨?_, fun s e b => rfl, ?_⟩
  · intro o
    cases o <;> simp [do_request]
  · intro sess ce k s e b hk1 hk3 hresp hprev
    have hks : (do_request (sess k)).isSome = true := by
      simp [do_request, hresp]
    rw [retryLoop_cases]
    simp only [MAX_RETRIES] at hk3
    interval_cases k
    · rw [if_pos hks]
      exact ⟨rfl, rfl, rfl⟩
    · have h1 : (do_request (sess 1)).isSome = false := hprev 1 (by omega) (by omega)
      rw [if_neg (by simp [h1]), if_pos hks]
      exact ⟨rfl, rfl, rfl⟩
    · have h1 : (do_request (sess 1)).isSome = false := hprev 1 (by omega) (by omega)
      have h2 : (do_request (sess 2)).isSome = false := hprev 2 (by omega) (by omega)
      rw [if_neg (by simp [h1]), if_neg (by simp [h2]), if_pos hks]
      exact ⟨rfl, rfl, rfl⟩

/-- Witness for C6: a 500 response still counts as a successful delivery,
and a session failing its first attempt and receiving a response on its
second stops the retry loop at attempt 2 with the counter reset from 7
to 0. -/
theorem success_iff_response_witness :
    do_request (fun _ => ReqOutcome.response 500 1 0) = some (500, 1) ∧
    (retryLoop sessRetryOnce 7 0).succeeded = true ∧
    (retryLoop sessRetryOnce 7 0).attempts = 2 ∧
    (retryLoop sessRetryOnce 7 0).consecutive_errors = 0 :=
  ⟨success_iff_response.2.1 500 1 0,
    success_iff_response.2.2 sessRetryOnce 7 2 200 (1 / 2) 17 (by decide) (by decide)
      rfl (by intro a h1 h2; interval_cases a; rfl)⟩

/-- C7: every cycle makes between 1 and `MAX_RETRIES` attempts; the loop
exits on the first success (all earlier attempts having failed), and a
cycle that never succeeds exits with exactly `MAX_RETRIES` attempts. -/
theorem retry_attempts_bounded (sess : ℕ → GetCall → ReqOutcome) (ce : ℕ) :
    1 ≤ (retryLoop sess ce 0).attempts ∧
    (retryLoop sess ce 0).attempts ≤ MAX_RETRIES ∧
    ((retryLoop sess ce 0).succeeded = true →
      (do_request (sess (retryLoop sess ce 0).attempts)).isSome = true ∧
      ∀ a, 1 ≤ a → a < (retryLoop sess ce 0).attempts →
        (do_request (sess a)).isSome = false) ∧
    ((retryLoop sess ce 0).succeeded = false →
      (retryLoop sess ce 0).attempts = MAX_RETRIES ∧
      ∀ a, 1 ≤ a → a ≤ MAX_RETRIES → (do_request (sess a)).isSome = false) := by
  rw [retryLoop_cases]
  by_cases h1 : (do_request (sess 1)).isSome = true
  · simp [h1, MAX_RETRIES]
    intro a ha1 ha2
    omega
  · by_cases h2 : (do_request (sess 2)).isSome = true
    · simp [h1, h2, MAX_RETRIES]
      intro a ha1 ha2
      interval_cases a
      simpa using h1
    · by_cases h3 : (do_request (sess 3)).isSome = true
      · simp [h1, h2, h3, MAX_RETRIES]
        intro a ha1 ha2
        interval_cases a
        · simpa using h1
        · simpa using h2
      · simp [h1, h2, h3, MAX_RETRIES]
        intro a ha1 ha2
        interval_cases a
        · simpa using h1
        · simpa using h2
        · simpa using h3

/-- Witness for C7 on an all-failing session: exactly `MAX_RETRIES`
attempts are made. -/
theorem retry_attempts_bounded_witness :
    (retryLoop allFailCycle.sess 0 0).attempts = MAX_RETRIES :=
  ((retry_attempts_bounded allFailCycle.sess 0).2.2.2
    (by rw [retryLoop_cases]; decide)).1

/-- C8: when the post-retry part of a cycle raises (any exception, not
only a transport error), the outer `except` handler catches it: the
cycle ends with a fixed 60-second sleep after the retry-loop sleeps,
the loop continues with the next cycle, and the run processes every
cycle (it never terminates because of the error). -/
theorem loop_level_error_caught (ce : ℕ) (inp : CycleInput) (inps : List CycleInput)
    (hraise : inp.interval_raises = true) :
    worker_body ce inp =
      ((retryLoop inp.sess ce 0).consecutive_errors,
        (retryLoop inp.sess ce 0).sleeps.map (fun n => (n : ℚ)) ++ [60]) ∧
    runWorker ce (inp :: inps) =
      worker_body ce inp :: runWorker (worker_body ce inp).1 inps ∧
    (runWorker ce (inp :: inps)).length = inps.length + 1 := by
  refine ⟨by simp [worker_body, hraise], rfl, by simp [runWorker_length]⟩

/-- A cycle input whose delivery succeeds but whose post-retry interval
stage raises an exception. -/
def raisingCycle : CycleInput :=
  { sess := fun _ _ => .response 200 1 5, t1 := 1 / 2, t2 := 1 / 2, interval_raises := true }

/-- Witness for C8 on a concrete raising cycle. -/
theorem loop_level_error_caught_witness :
    worker_body 0 raisingCycle =
      ((retryLoop raisingCycle.sess 0 0).consecutive_errors,
        (retryLoop raisingCycle.sess 0 0).sleeps.map (fun n => (n : ℚ)) ++ [60]) ∧
    runWorker 0 (raisingCycle :: []) =
      worker_body 0 raisingCycle :: runWorker (worker_body 0 raisingCycle).1 [] ∧
    (runWorker 0 (raisingCycle :: [])).length = List.length ([] : List CycleInput) + 1 :=
  loop_level_error_caught 0 raisingCycle [] rfl

/-- C9: `do_request` issues its GET with the fixed timeout
`REQUEST_TIMEOUT = 30` (its outcome depends only on the network's answer
to that call), a timeout is handled exactly as a connection error, and
replacing timeouts by connection errors attempt-by-attempt leaves the
whole retry loop — attempts, sleeps, and both counters — unchanged. -/
theorem timeout_handled_as_transport_failure :
    REQUEST_TIMEOUT = 30 ∧
    (∀ respond respond2 : GetCall → ReqOutcome,
      respond { timeout := REQUEST_TIMEOUT } = respond2 { timeout := REQUEST_TIMEOUT } →
      do_request respond = do_request respond2) ∧
    (∀ e e2 : ℚ, do_request (fun _ => ReqOutcome.timeout e) =
      do_request (fun _ => ReqOutcome.connError e2)) ∧
    (∀ sess sess2 : ℕ → GetCall → ReqOutcome, ∀ ce : ℕ,
      (∀ a, sess2 a = sess a ∨
        ∃ e e2, sess a { timeout := REQUEST_TIMEOUT } = ReqOutcome.timeout e ∧
          sess2 a { timeout := REQUEST_TIMEOUT } = ReqOutcome.connError e2) →
      retryLoop sess ce 0 = retryLoop sess2 ce 0) := by
  refine ⟨rfl, ?_, fun e e2 => rfl, ?_⟩
  · intro respond respond2 h
    unfold do_request
    rw [h]
  · intro sess sess2 ce h
    have hiso : ∀ a, (do_request (sess2 a)).isSome = (do_request (sess a)).isSome := by
      intro a
      rcases h a with he | ⟨e, e2, h1, h2⟩
      · rw [he]
      · simp [do_request, h1, h2]
    rw [retryLoop_cases, retryLoop_cases, hiso 1, hiso 2, hiso 3]

/-- Witness for C9: a session that always times out and one that always
fails to connect drive the retry loop identically. -/
theorem timeout_handled_as_transport_failure_witness :
    retryLoop (fun _ _ => ReqOutcome.timeout 30) 0 0 =
      retryLoop (fun _ _ => ReqOutcome.connError 2) 0 0 :=
  timeout_handled_as_transport_failure.2.2.2
    (fun _ _ => ReqOutcome.timeout 30) (fun _ _ => ReqOutcome.connError 2) 0
    (fun _ => Or.inr ⟨30, 2, rfl, rfl⟩)

/-- A URL parsed by `urllib.parse.urlparse`: the six components, with
the query component already split into its key-value pairs by
`parse_qsl(query, keep_blank_values=True)`. -/
structure ParsedUrl where
  scheme : String
  netloc : String
  path : String
  params : String
  query : List (String × String)
  fragment : String
deriving DecidableEq

/-- Python dict assignment `d[k] = v` on an insertion-ordered dict given
as its entry list: if the key is present its value is updated in place,
otherwise the pair is appended. -/
def dictInsert (d : List (String × String)) (k v : String) : List (String × String) :=
  if d.any (fun p => p.1 == k) then
    d.map (fun p => if p.1 == k then (k, v) else p)
  else
    d ++ [(k, v)]

/-- `dict(parse_qsl(...))` (line 96): fold the query's key-value pairs
into an insertion-ordered dict — the first occurrence of a key fixes its
position, the last occurrence its value. -/
def toDict (q : List (String × String)) : List (String × String) :=
  q.foldl (fun d p => dictInsert d p.1 p.2) []

/-- `randomize_url` (lines 90-103) at the level of the parsed URL, with
the random draws explicit: `add` is the event `random.random() < 0.7`,
`key` the `random.choice(EXTRA_QUERY_KEYS)` draw, and `val` the
timestamp-and-random-integer value string.  The query is re-parsed into
a dict, optionally one parameter is set, and only the query component of
the parsed URL is replaced (`parsed._replace(query=new_query)`). -/
def randomize_url (u : ParsedUrl) (add : Bool) (key val : String) : ParsedUrl :=
  let q := toDict u.query
  let q2 := if add then dictInsert q key val else q
  { u with query := q2 }

theorem keys_dictInsert_present (d : List (String × String)) (k0 v : String)
    (h : d.any (fun p => p.1 == k0) = true) :
    (dictInsert d k0 v).map Prod.fst = d.map Prod.fst := by
  rw [dictInsert, if_pos h, List.map_map]
  refine List.map_congr_left ?_
  intro p _
  by_cases hb : p.1 = k0
  · simp [hb]
  · simp [hb]

theorem keys_dictInsert_absent (d : List (String × String)) (k0 v : String)
    (h : ¬ d.any (fun p => p.1 == k0) = true) :
    (dictInsert d k0 v).map Prod.fst = d.map Prod.fst ++ [k0] := by
  rw [dictInsert, if_neg h, List.map_append]
  rfl

theorem keys_dictInsert_nodup (d : List (String × String)) (k0 v : String)
    (hnd : (d.map Prod.fst).Nodup) :
    ((dictInsert d k0 v).map Prod.fst).Nodup := by
  by_cases h : d.any (fun p => p.1 == k0) = true
  · rw [keys_dictInsert_present d k0 v h]
    exact hnd
  · rw [keys_dictInsert_absent d k0 v h]
    simp only [List.any_eq_true, beq_iff_eq, not_exists, not_and] at h
    simp only [List.nodup_append, List.nodup_singleton, List.mem_singleton]
    refine ⟨hnd, by simp, ?_⟩
    intro x hx hx0
    rw [List.mem_singleton] at hx0
    subst hx0
    obtain ⟨p, hp, hpk⟩ := List.mem_map.1 hx
    exact h p hp hpk

theorem mem_keys_dictInsert (d : List (String × String)) (k0 v k : String) :
    k ∈ (dictInsert d k0 v).map Prod.fst ↔ k ∈ d.map Prod.fst ∨ k = k0 := by
  by_cases h : d.any (fun p => p.1 == k0) = true
  · rw [keys_dictInsert_present d k0 v h]
    simp only [List.any_eq_true, beq_iff_eq] at h
    obtain ⟨p0, hp0, hp0k⟩ := h
    constructor
    · exact Or.inl
    · rintro (hk | rfl)
      · exact hk
      · exact List.mem_map.2 ⟨p0, hp0, hp0k⟩
  · rw [keys_dictInsert_absent d k0 v h]
    simp

theorem toDict_keys_nodup (q : List (String × String)) :
    ((toDict q).map Prod.fst).Nodup := by
  suffices h : ∀ d : List (String × String), (d.map Prod.fst).Nodup →
      (((q.foldl (fun d p => dictInsert d p.1 p.2) d)).map Prod.fst).Nodup by
    exact h [] (by simp)
  induction q with
  | nil => intro d hd; simpa using hd
  | cons p rest ih =>
    intro d hd
    rw [List.foldl_cons]
    exact ih _ (keys_dictInsert_nodup d p.1 p.2 hd)

theorem mem_keys_toDict (q : List (String × String)) (k : String) :
    k ∈ (toDict q).map Prod.fst ↔ k ∈ q.map Prod.fst := by
  suffices h : ∀ d : List (String × String),
      (k ∈ ((q.foldl (fun d p => dictInsert d p.1 p.2) d)).map Prod.fst ↔
        k ∈ d.map Prod.fst ∨ k ∈ q.map Prod.fst) by
    simpa using h []
  induction q with
  | nil => intro d; simp
  | cons p rest ih =>
    intro d
    rw [List.foldl_cons, ih (dictInsert d p.1 p.2), mem_keys_dictInsert]
    simp only [List.map_cons, List.mem_cons]
    tauto

theorem foldl_dictInsert_of_disjoint (q : List (String × String)) :
    ∀ d : List (String × String), (q.map Prod.fst).Nodup →
      (∀ p ∈ q, ∀ r ∈ d, r.1 ≠ p.1) →
      q.foldl (fun d p => dictInsert d p.1 p.2) d = d ++ q := by
  induction q with
  | nil => intro d _ _; simp
  | cons p rest ih =>
    intro d hnd hdisj
    have hnot : ¬ d.any (fun r => r.1 == p.1) = true := by
      simp only [List.any_eq_true, beq_iff_eq, not_exists, not_and]
      exact fun r hr => hdisj p (by simp) r hr
    have h1 : dictInsert d p.1 p.2 = d ++ [p] := by
      rw [dictInsert, if_neg hnot]
    have hnd2 : (p.1 :: rest.map Prod.fst).Nodup := by simpa using hnd
    have hdisj2 : ∀ p2 ∈ rest, ∀ r ∈ d ++ [p], r.1 ≠ p2.1 := by
      intro p2 hp2 r hr
      rcases List.mem_append.1 hr with hrd | hrp
      · exact hdisj p2 (by simp [hp2]) r hrd
      · rw [List.mem_singleton] at hrp
        subst hrp
        intro hcon
        exact (List.nodup_cons.1 hnd2).1 (hcon ▸ List.mem_map.2 ⟨p2, hp2, rfl⟩)
    rw [List.foldl_cons, h1, ih (d ++ [p]) (List.nodup_cons.1 hnd2).2 hdisj2]
    simp

theorem toDict_eq_self (q : List (String × String))
    (hnd : (q.map Prod.fst).Nodup) : toDict q = q := by
  rw [toDict, foldl_dictInsert_of_disjoint q [] hnd (by simp)]
  simp

theorem filter_replace (d : List (String × String)) (k v : String)
    (hnd : (d.map Prod.fst).Nodup) (hk : k ∈ d.map Prod.fst) :
    (d.map (fun p => if p.1 == k then (k, v) else p)).filter
      (fun p => p.1 == k) = [(k, v)] := by
  induction d with
  | nil => simp at hk
  | cons p rest ih =>
    have hnd2 : (p.1 :: rest.map Prod.fst).Nodup := by simpa using hnd
    by_cases hb : p.1 = k
    · have hkrest : k ∉ rest.map Prod.fst := by
        intro hcon
        exact (List.nodup_cons.1 hnd2).1 (hb ▸ hcon)
      have hne : ∀ r ∈ rest, (r.1 == k) = false := by
        intro r hrm
        rw [beq_eq_false_iff_ne]
        intro hc
        exact hkrest (List.mem_map.2 ⟨r, hrm, hc⟩)
      have hmap : rest.map (fun p => if p.1 == k then (k, v) else p) = rest := by
        have hr : ∀ r ∈ rest, (if r.1 == k then (k, v) else r) = id r := by
          intro r hrm
          simp [hne r hrm]
        rw [List.map_congr_left hr, List.map_id]
      have hfil : rest.filter (fun p => p.1 == k) = [] := by
        rw [List.filter_eq_nil_iff]
        intro r hrm
        simp [hne r hrm]
      rw [List.map_cons, hmap, List.filter_cons]
      simp [hb, hfil]
    · have hkrest : k ∈ rest.map Prod.fst := by
        rw [List.map_cons, List.mem_cons] at hk
        rcases hk with h | h
        · exact absurd h.symm hb
        · exact h
      have hbb : (p.1 == k) = false := beq_eq_false_iff_ne.2 hb
      rw [List.map_cons]
      simp only [hbb, Bool.false_eq_true, if_false, List.filter_cons, hbb]
      exact ih (List.nodup_cons.1 hnd2).2 hkrest

/-- The first target of the `URLS` list, parsed, with a query that
already carries the parameter `t=1`. -/
def ceUrl : ParsedUrl :=
  { scheme := "https", netloc := "aimatrix-e8zs.onrender.com",
    path := "/upload_files_pyrus", params := "",
    query := [("t", "1")], fragment := "" }

/-- C5 fails as stated: when the chosen key already occurs in the query,
the original pair is no longer present in the output — the query was not
merely extended by added parameters. -/
theorem randomize_url_not_pure_extension :
    "t" ∈ EXTRA_QUERY_KEYS ∧
    ("t", "1") ∈ ceUrl.query ∧
    ("t", "1") ∉ (randomize_url ceUrl true "t" "1760000000_42").query := by
  decide

/-- C5 (amended): every non-query component — in particular host
(`netloc`) and path — is unchanged; and provided the original query has
pairwise-distinct keys, the query is unchanged (or extended by exactly
the one chosen pair) whenever the chosen key is absent or no parameter
is added, while a chosen key that is already present has its value
replaced in place instead of a pair being added. -/
theorem randomize_url_same_host_path (u : ParsedUrl) (add : Bool) (key val : String)
    (_hk : key ∈ EXTRA_QUERY_KEYS)
    (hnodup : (u.query.map Prod.fst).Nodup) :
    (randomize_url u add key val).netloc = u.netloc ∧
    (randomize_url u add key val).path = u.path ∧
    (randomize_url u add key val).scheme = u.scheme ∧
    (randomize_url u add key val).params = u.params ∧
    (randomize_url u add key val).fragment = u.fragment ∧
    ((add = false ∨ key ∉ u.query.map Prod.fst) →
      (randomize_url u add key val).query =
        u.query ++ (if add then [(key, val)] else [])) ∧
    (add = true → key ∈ u.query.map Prod.fst →
      (randomize_url u add key val).query =
        u.query.map (fun p => if p.1 == key then (key, val) else p)) := by
  refine ⟨rfl, rfl, rfl, rfl, rfl, ?_, ?_⟩
  · intro hcase
    show (if add then dictInsert (toDict u.query) key val else toDict u.query) = _
    rw [toDict_eq_self u.query hnodup]
    rcases hcase with hf | habs
    · subst hf
      simp
    · cases add
      · simp
      · have hnot : ¬ u.query.any (fun p => p.1 == key) = true := by
          simp only [List.any_eq_true, beq_iff_eq, not_exists, not_and]
          intro p hp hpk
          exact habs (List.mem_map.2 ⟨p, hp, hpk⟩)
        rw [if_pos rfl, dictInsert, if_neg hnot]
        simp
  · intro hadd hmem
    subst hadd
    show (if true then dictInsert (toDict u.query) key val else toDict u.query) = _
    rw [if_pos rfl, toDict_eq_self u.query hnodup, dictInsert, if_pos ?_]
    simp only [List.any_eq_true, beq_iff_eq]
    obtain ⟨p, hp, hpk⟩ := List.mem_map.1 hmem
    exact ⟨p, hp, hpk⟩

/-- A parsed URL with a single query parameter whose key is not in
`EXTRA_QUERY_KEYS`. -/
def wUrl : ParsedUrl :=
  { scheme := "https", netloc := "aimatrix-e8zs.onrender.com",
    path := "/upload_files_pyrus", params := "",
    query := [("page", "2")], fragment := "" }

/-- Witness for the amended C5: host and path survive, the new pair is
appended. -/
theorem randomize_url_same_host_path_witness :
    (randomize_url wUrl true "t" "1760_9").netloc = wUrl.netloc ∧
    (randomize_url wUrl true "t" "1760_9").path = wUrl.path ∧
    (randomize_url wUrl true "t" "1760_9").query = wUrl.query ++ [("t", "1760_9")] := by
  have h := randomize_url_same_host_path wUrl true "t" "1760_9" (by decide) (by decide)
  refine ⟨h.1, h.2.1, ?_⟩
  have h6 := h.2.2.2.2.2.1 (Or.inr (by decide))
  simpa using h6

/-- C10: when the chosen key already occurs in the input query, the
output query holds exactly one pair with that key — carrying the new
value — and has the same number of parameters as the re-parsed input
query: the value is replaced, no second parameter is added. -/
theorem randomize_url_replaces_existing (u : ParsedUrl) (key val : String)
    (hkey : key ∈ u.query.map Prod.fst) :
    (randomize_url u true key val).query.filter (fun p => p.1 == key) = [(key, val)] ∧
    (randomize_url u true key val).query.length = (toDict u.query).length := by
  have hnd : ((toDict u.query).map Prod.fst).Nodup := toDict_keys_nodup u.query
  have hk2 : key ∈ (toDict u.query).map Prod.fst := (mem_keys_toDict u.query key).2 hkey
  have hany : (toDict u.query).any (fun p => p.1 == key) = true := by
    simp only [List.any_eq_true, beq_iff_eq]
    obtain ⟨p, hp, hpk⟩ := List.mem_map.1 hk2
    exact ⟨p, hp, hpk⟩
  have hq : (randomize_url u true key val).query =
      (toDict u.query).map (fun p => if p.1 == key then (key, val) else p) := by
    show (if true then dictInsert (toDict u.query) key val else toDict u.query) = _
    rw [if_pos rfl, dictInsert, if_pos hany]
  rw [hq]
  exact ⟨filter_replace (toDict u.query) key val hnd hk2, List.length_map _ _⟩

/-- Witness for C10 on a query already carrying `t=1`. -/
theorem randomize_url_replaces_existing_witness :
    (randomize_url ceUrl true "t" "1760_9").query.filter
        (fun p => p.1 == "t") = [("t", "1760_9")] ∧
    (randomize_url ceUrl true "t" "1760_9").query.length = (toDict ceUrl.query).length :=
  randomize_url_replaces_existing ceUrl "t" "1760_9" (by decide)

end Keepalive
